import Mathlib

/-!
Verification of the bulk-image-optimizer core (`bio` package): a shallow
embedding of `bio/engine.py`, `bio/batch.py`, `bio/results.py`,
`bio/settings.py` and `bio/report.py`, together with theorems about the
size gate, extension gate, output-path collision policy, center crop,
resize, batch cancellation and report building.

Python machine behaviour is modelled as follows: Python `int` is `ℤ` (or
`ℕ` where the source values are provably non-negative), Python `float`
arithmetic on the quantities compared here is modelled by exact `ℚ`
arithmetic, `int(x)` is truncation toward zero, `round(x, 2)` is
round-half-to-even at two decimals, and the filesystem is an association
list from paths to byte sizes.
-/

namespace Bio

/-- Truncation toward zero, the semantics of Python `int(float)`. -/
def pyInt (q : ℚ) : ℤ := if q < 0 then ⌈q⌉ else ⌊q⌋

theorem pyInt_eq_floor {q : ℚ} (h : 0 ≤ q) : pyInt q = ⌊q⌋ := by
  simp [pyInt, not_lt.mpr h]

/-- Round-half-to-even to the nearest integer, the tie behaviour of
Python `round`. -/
def halfEvenRound (q : ℚ) : ℤ :=
  let f := ⌊q⌋
  if q - f < 1/2 then f
  else if q - f > 1/2 then f + 1
  else if Even f then f else f + 1

/-- `round(x, 2)`: round to two decimal places (ties to even). -/
def round2 (q : ℚ) : ℚ := (halfEvenRound (q * 100) : ℚ) / 100

/-- The decimal digit character for `n % 10` (codepoints 48–57). -/
def digChar (n : ℕ) : Char := Char.ofNat (48 + n % 10)

theorem digChar_ne_plus (n : ℕ) : digChar n ≠ '+' := by
  have h : ∀ m, m < 10 → Char.ofNat (48 + m) ≠ '+' := by decide
  have hm := h (n % 10) (Nat.mod_lt _ (by norm_num))
  simpa [digChar] using hm

/-- Numeric value of a digit character. -/
def digVal (c : Char) : ℕ := c.toNat - 48

theorem digVal_digChar (n : ℕ) : digVal (digChar n) = n % 10 := by
  have h : ∀ m, m < 10 → digVal (Char.ofNat (48 + m)) = m := by decide
  have hm := h (n % 10) (Nat.mod_lt _ (by norm_num))
  simpa [digChar] using hm

/-- Little-endian decimal digits of a natural number (the digits of the
rendering produced by Python `str(i)`, reversed). -/
def natDigitsRev (n : ℕ) : List Char :=
  if h : n < 10 then [digChar n]
  else digChar (n % 10) :: natDigitsRev (n / 10)
  decreasing_by exact Nat.div_lt_self (by omega) (by omega)

/-- Value of a little-endian digit list. -/
def digitsVal : List Char → ℕ
  | [] => 0
  | c :: cs => digVal c + 10 * digitsVal cs

theorem digitsVal_natDigitsRev (n : ℕ) : digitsVal (natDigitsRev n) = n := by
  induction n using Nat.strong_induction_on with
  | _ n ih =>
    unfold natDigitsRev
    by_cases h : n < 10
    · simp only [h, dite_true, digitsVal, digVal_digChar, Nat.mod_eq_of_lt h]
      omega
    · simp only [h, dite_false, digitsVal, digVal_digChar]
      rw [ih (n / 10) (Nat.div_lt_self (by omega) (by omega))]
      omega

theorem natDigitsRev_injective : Function.Injective natDigitsRev := by
  intro a b h
  have := digitsVal_natDigitsRev a
  rw [h, digitsVal_natDigitsRev] at this
  omega

/-- Decimal rendering of a natural number, the model of Python `str(i)`
for a non-negative `int`. -/
def natStr (n : ℕ) : String := String.mk (natDigitsRev n).reverse

theorem natStr_injective : Function.Injective natStr := by
  intro a b h
  apply natDigitsRev_injective
  have h2 : (natDigitsRev a).reverse = (natDigitsRev b).reverse := by
    simpa [natStr] using congrArg String.data h
  simpa using congrArg List.reverse h2

/-- Replace every occurrence of the non-empty pattern `p0 :: ps` by `rep`,
scanning left to right — the semantics of Python `str.replace` at the
character level. -/
def replChars (p0 : Char) (ps rep : List Char) : List Char → List Char
  | [] => []
  | c :: rest =>
    if (p0 :: ps).isPrefixOf (c :: rest) then
      rep ++ replChars p0 ps rep (rest.drop ps.length)
    else
      c :: replChars p0 ps rep rest
  termination_by l => l.length
  decreasing_by
  all_goals (simp [List.length_drop]; try omega)

/-- Scanning text that never contains the pattern's first character and
ends in exactly the pattern replaces only that final occurrence. -/
theorem replChars_append_pattern (p0 : Char) (ps rep : List Char)
    (l : List Char) (hl : ∀ c ∈ l, c ≠ p0) :
    replChars p0 ps rep (l ++ (p0 :: ps)) = l ++ rep := by
  induction l with
  | nil =>
    rw [List.nil_append, List.nil_append]
    rw [replChars]
    have hpre : (p0 :: ps).isPrefixOf (p0 :: ps) = true := by
      simp [List.isPrefixOf_iff_prefix]
    rw [if_pos hpre]
    have hdrop : ps.drop ps.length = [] := by simp
    rw [hdrop, replChars, List.append_nil]
  | cons c l ih =>
    have hc : c ≠ p0 := hl c (List.mem_cons_self c l)
    rw [List.cons_append, replChars]
    have hpre : (p0 :: ps).isPrefixOf (c :: (l ++ (p0 :: ps))) = false := by
      simp [List.isPrefixOf_cons₂, Ne.symm hc]
    rw [if_neg (by simp [hpre])]
    rw [ih (fun d hd => hl d (List.mem_cons_of_mem c hd))]
    simp

/-- Python `s.replace(old, new)` for a non-empty `old`. -/
def pyReplace (s : String) (p0 : Char) (ps : List Char) (rep : String) : String :=
  String.mk (replChars p0 ps rep.data s.data)

/-- Python `str.lower()`, character-wise (ASCII case folding). -/
def strLower (s : String) : String := String.mk (s.data.map Char.toLower)

/-! ## Paths and the filesystem

A `pathlib.Path` is modelled structurally by its parent directory, its
stem and its extension (`suffix` in pathlib terms, including the dot),
the three components the engine manipulates.  The filesystem is an
association list from paths to file contents; for the engine the content
of a file is its byte size (`ℕ`). -/

structure PathT where
  dir : String
  stem : String
  ext : String
  deriving DecidableEq, Repr

/-- `p.stat().st_size` lookup: the first binding of `p` in the store. -/
def getS {α : Type} : List (PathT × α) → PathT → Option α
  | [], _ => none
  | (q, v) :: t, p => if p = q then some v else getS t p

/-- Delete a file (all bindings of `p`); a no-op when the file is absent,
matching `unlink(missing_ok=True)`. -/
def delS {α : Type} (fs : List (PathT × α)) (p : PathT) : List (PathT × α) :=
  fs.filter (fun e => decide (e.1 ≠ p))

/-- Create or overwrite a file. -/
def setS {α : Type} (fs : List (PathT × α)) (p : PathT) (v : α) : List (PathT × α) :=
  (p, v) :: delS fs p

theorem getS_delS {α : Type} (fs : List (PathT × α)) (p q : PathT) :
    getS (delS fs p) q = if q = p then none else getS fs q := by
  induction fs with
  | nil => simp [delS, getS]
  | cons e t ih =>
    obtain ⟨r, v⟩ := e
    by_cases hrp : r = p
    · subst hrp
      have h1 : delS ((r, v) :: t) r = delS t r := by
        simp [delS, List.filter_cons]
      rw [h1, ih]
      by_cases hq : q = r
      · simp [hq]
      · simp [getS, hq]
    · have h1 : delS ((r, v) :: t) p = (r, v) :: delS t p := by
        simp [delS, List.filter_cons, hrp]
      rw [h1]
      by_cases hq : q = r
      · have hqp : ¬q = p := by rw [hq]; exact hrp
        simp [getS, hq, hqp]
        exact hrp
      · simp [getS, hq, ih]

theorem getS_setS {α : Type} (fs : List (PathT × α)) (p q : PathT) (v : α) :
    getS (setS fs p v) q = if q = p then some v else getS fs q := by
  by_cases h : q = p <;> simp [setS, getS, h, getS_delS]

/-- Byte-size filesystem: path ↦ size. -/
def FS : Type := List (PathT × ℕ)

/-- `Path.exists()`. -/
def fileExists (fs : FS) (p : PathT) : Bool := (getS fs p).isSome

/-- `_file_size`: `st_size`, or `0` when the file does not exist
(`FileNotFoundError` is caught). -/
def fileSize (fs : FS) (p : PathT) : ℕ := (getS fs p).getD 0

/-! ## The image abstraction

Pixel data lives in the external image library; the engine only observes
and transforms an image's size, its mode and its transparency /
metadata info.  `x0`/`y0` track the offset of the retained viewport
inside the original pixel grid, so that "centered" cropping is a
statement about offsets. -/

structure Img where
  x0 : ℕ
  y0 : ℕ
  w : ℕ
  h : ℕ
  mode : String
  transparencyInfo : Bool
  deriving DecidableEq, Repr

/-- `im.crop((l, t, r, b))`. -/
def Img.crop (im : Img) (l t r b : ℕ) : Img :=
  { im with x0 := im.x0 + l, y0 := im.y0 + t, w := r - l, h := b - t }

/-- `im.resize((nw, nh), LANCZOS)`. -/
def Img.resizeTo (im : Img) (nw nh : ℕ) : Img :=
  { im with w := nw, h := nh }

/-! ## Settings (`bio/settings.py`, `OptimizeSettings`)

All fields of the frozen dataclass; `crop_ratio : Optional[float]` is
rendered as `cropAspect : Option ℚ`. -/

inductive OutputFormat where
  | keep
  | jpeg
  | png
  | webp
  deriving DecidableEq, Repr

inductive EncFmt where
  | jpeg
  | png
  | webp
  deriving DecidableEq, Repr

structure OptimizeSettings where
  output_dir : String
  output_format : OutputFormat := .keep
  overwrite : Bool := false
  only_if_smaller : Bool := true
  suffix : String := "_optimized"
  strip_metadata : Bool := true
  auto_orient : Bool := true
  max_width : Option ℤ := none
  max_height : Option ℤ := none
  scale_percent : Option ℤ := none
  -- `engine.py` reads `s.allow_upscale` on every configured resize and
  -- `cli.py` sets it, but the frozen dataclass in `settings.py` does NOT
  -- declare this field: in the program that read raises `AttributeError`
  -- (see the C7 code bug).  The model supplies the field the engine
  -- requires, with the CLI flag's default of `False`.
  allow_upscale : Bool := false
  cropAspect : Option ℚ := none
  jpeg_quality : ℤ := 82
  jpeg_progressive : Bool := true
  jpeg_optimize : Bool := true
  png_compress_level : ℤ := 9
  png_optimize : Bool := true
  webp_quality : ℤ := 80
  webp_lossless : Bool := false
  webp_method : ℤ := 4
  jpeg_background : ℤ × ℤ × ℤ := (255, 255, 255)
  deriving DecidableEq, Repr

/-! ## Results (`bio/results.py`, `ProcessResult`) -/

structure ProcessResult where
  src_path : PathT
  out_path : Option PathT
  src_bytes : ℕ
  out_bytes : ℕ
  changed : Bool
  skipped_reason : Option String := none
  deriving DecidableEq, Repr

/-- `ProcessResult.saved_bytes`: `max(0, src_bytes - out_bytes)`. -/
def ProcessResult.savedBytes (r : ProcessResult) : ℤ :=
  max 0 ((r.src_bytes : ℤ) - r.out_bytes)

/-- `ProcessResult.saved_percent`: `0.0` when the source size is `≤ 0`,
else `saved_bytes / src_bytes * 100.0`. -/
def ProcessResult.savedPercent (r : ProcessResult) : ℚ :=
  if r.src_bytes ≤ 0 then 0
  else ((r.savedBytes : ℚ) / (r.src_bytes : ℚ)) * 100

/-! ## The engine (`bio/engine.py`) -/

/-- `SUPPORTED_EXTS`. -/
def supportedExts : List String := [".jpg", ".jpeg", ".png", ".webp"]

/-- `EXT_TO_FORMAT`. -/
def extToFormat (e : String) : Option EncFmt :=
  if e = ".jpg" then some .jpeg
  else if e = ".jpeg" then some .jpeg
  else if e = ".png" then some .png
  else if e = ".webp" then some .webp
  else none

/-- `FORMAT_TO_EXT`. -/
def formatToExt : EncFmt → String
  | .jpeg => ".jpg"
  | .png => ".png"
  | .webp => ".webp"

/-- `_normalize_settings`: force auto-orient on when stripping metadata. -/
def normalizeSettings (s : OptimizeSettings) : OptimizeSettings :=
  if s.strip_metadata ∧ ¬s.auto_orient then { s with auto_orient := true } else s

/-- `_choose_output_format`. -/
def chooseOutputFormat (srcPath : PathT) (s : OptimizeSettings) : EncFmt :=
  match s.output_format with
  | .keep => (extToFormat (strLower srcPath.ext)).getD .jpeg
  | .jpeg => .jpeg
  | .png => .png
  | .webp => .webp

/-- `_build_output_path`: `{output_dir}/{stem}{suffix}{ext}`. -/
def buildOutputPath (srcPath : PathT) (s : OptimizeSettings) (fmt : EncFmt) : PathT :=
  { dir := s.output_dir, stem := srcPath.stem ++ s.suffix, ext := formatToExt fmt }

/-- The `i`-th collision-avoidance candidate: `stem (i).ext`. -/
def candPath (p : PathT) (i : ℕ) : PathT :=
  { dir := p.dir, stem := p.stem ++ " (" ++ natStr i ++ ")", ext := p.ext }

theorem candPath_injective (p : PathT) : Function.Injective (candPath p) := by
  intro a b h
  have hstem := congrArg PathT.stem h
  simp only [candPath] at hstem
  have h2 : p.stem.data ++ (" (".data ++ (natStr a).data ++ ")".data)
      = p.stem.data ++ (" (".data ++ (natStr b).data ++ ")".data) := by
    have := congrArg String.data hstem
    simpa [String.data_append, List.append_assoc] using this
  have h3 := List.append_cancel_left h2
  have h4 := List.append_cancel_left (List.append_assoc _ _ _ ▸ h3)
  exact natStr_injective (by
    apply congrArg String.mk
    exact List.append_cancel_right h4)

/-- The search loop of `_next_available_name`, with explicit fuel (the
Python `while True` loop; `nextAvailableName` supplies enough fuel for
the loop to terminate on the finite filesystem). -/
def nextAvailAux (fs : FS) (p : PathT) : ℕ → ℕ → PathT
  | 0, i => candPath p i
  | fuel + 1, i =>
    if fileExists fs (candPath p i) then nextAvailAux fs p fuel (i + 1)
    else candPath p i

/-- `_next_available_name`: `stem (1).ext`, `stem (2).ext`, … until an
unused name is found. -/
def nextAvailableName (fs : FS) (p : PathT) : PathT :=
  nextAvailAux fs p (fs.length + 1) 1

/-- `_has_alpha`. -/
def hasAlpha (im : Img) : Bool :=
  if im.mode = "RGBA" ∨ im.mode = "LA" then true
  else if im.mode = "P" ∧ im.transparencyInfo then true
  else false

/-- `_flatten_alpha`: composite over the background and convert to RGB;
size is preserved, alpha is gone. -/
def flattenAlpha (im : Img) (_background : ℤ × ℤ × ℤ) : Img :=
  { im with mode := "RGB", transparencyInfo := false }

/-- `_apply_resize` (dimension behaviour; the Lanczos resampling itself
is external). -/
def applyResize (im : Img) (s : OptimizeSettings) : Img :=
  match s.scale_percent with
  | some sp =>
    let pct : ℕ := (max 1 sp).toNat
    let nw : ℕ := max 1 (im.w * pct / 100)
    let nh : ℕ := max 1 (im.h * pct / 100)
    if ¬s.allow_upscale ∧ (nw > im.w ∨ nh > im.h) then im
    else if nw = im.w ∧ nh = im.h then im
    else im.resizeTo nw nh
  | none =>
    if s.max_width = none ∧ s.max_height = none then im
    else
      let mw : ℚ := match s.max_width with | some v => (v : ℚ) | none => (im.w : ℚ)
      let mh : ℚ := match s.max_height with | some v => (v : ℚ) | none => (im.h : ℚ)
      let sc : ℚ := min (mw / (im.w : ℚ)) (mh / (im.h : ℚ))
      if ¬s.allow_upscale ∧ sc ≥ 1 then im
      else
        let nw : ℕ := max 1 (pyInt ((im.w : ℚ) * sc)).toNat
        let nh : ℕ := max 1 (pyInt ((im.h : ℚ) * sc)).toNat
        if nw = im.w ∧ nh = im.h then im
        else im.resizeTo nw nh

/-- `_apply_center_crop`. -/
def applyCenterCrop (im : Img) (s : OptimizeSettings) : Img :=
  match s.cropAspect with
  | none => im
  | some a =>
    if a ≤ 0 then im
    else if im.w = 0 ∨ im.h = 0 then im
    else
      let current : ℚ := (im.w : ℚ) / (im.h : ℚ)
      if |current - a| < 1 / 1000000 then im
      else if current > a then
        let nw : ℕ := (pyInt ((im.h : ℚ) * a)).toNat
        let left : ℕ := (im.w - nw) / 2
        im.crop left 0 (left + nw) im.h
      else
        let nh : ℕ := (pyInt ((im.w : ℚ) / a)).toNat
        let top : ℕ := (im.h - nh) / 2
        im.crop 0 top im.w (top + nh)

/-- The external collaborators of one `process_image` call: the decoded
source image (`Image.open` + `load`), `ImageOps.exif_transpose`, the
encoder (the byte size `im.save` produces for the processed image under
the configured encoder parameters) and the fresh temp-file name chosen
by `tempfile.mkstemp`. -/
structure Oracle where
  im : Img
  transpose : Img → Img
  encSize : Img → ℕ
  tmpName : String

/-- The in-memory pipeline of `process_image`: auto-orient, center crop,
resize, and alpha flattening when encoding to JPEG. -/
def processedImg (srcPath : PathT) (s : OptimizeSettings) (o : Oracle) : Img :=
  let im0 := if s.auto_orient then o.transpose o.im else o.im
  let im1 := applyCenterCrop im0 s
  let im2 := applyResize im1 s
  let fmt := chooseOutputFormat srcPath s
  if fmt = .jpeg ∧ hasAlpha im2 then flattenAlpha im2 s.jpeg_background else im2

/-- `process_image`: returns the `ProcessResult` and the filesystem after
the call.  Directory creation (`mkdir`) is not tracked in the byte-size
store. -/
def processImage (fs : FS) (srcPath : PathT) (s : OptimizeSettings) (o : Oracle) :
    ProcessResult × FS :=
  let srcBytes := fileSize fs srcPath
  if strLower srcPath.ext ∉ supportedExts then
    ({ src_path := srcPath, out_path := none, src_bytes := srcBytes,
       out_bytes := srcBytes, changed := false,
       skipped_reason := some "unsupported_extension" }, fs)
  else
    let s := normalizeSettings s
    let fmt := chooseOutputFormat srcPath s
    let outPath0 := buildOutputPath srcPath s fmt
    let outPath :=
      if fileExists fs outPath0 ∧ ¬s.overwrite then nextAvailableName fs outPath0
      else outPath0
    let im := processedImg srcPath s o
    let tmpPath : PathT := { dir := s.output_dir, stem := o.tmpName, ext := formatToExt fmt }
    let tmpBytes := o.encSize im
    let fs1 := setS fs tmpPath tmpBytes
    if s.only_if_smaller ∧ tmpBytes ≥ srcBytes then
      ({ src_path := srcPath, out_path := none, src_bytes := srcBytes,
         out_bytes := srcBytes, changed := false,
         skipped_reason := some "not_smaller" }, delS fs1 tmpPath)
    else
      let fs2 := if s.overwrite ∧ fileExists fs1 outPath then delS fs1 outPath else fs1
      let fs3 := setS (delS fs2 tmpPath) outPath tmpBytes
      let outBytes := fileSize fs3 outPath
      ({ src_path := srcPath, out_path := some outPath, src_bytes := srcBytes,
         out_bytes := outBytes, changed := true, skipped_reason := none }, fs3)

/-! ## The batch orchestrator (`bio/batch.py`) -/

structure BatchSummary where
  total_files : ℕ
  processed : ℕ
  skipped : ℕ
  total_src_bytes : ℕ
  total_out_bytes : ℕ
  deriving DecidableEq, Repr

/-- `BatchSummary.saved_bytes`. -/
def BatchSummary.savedBytes (y : BatchSummary) : ℤ :=
  max 0 ((y.total_src_bytes : ℤ) - y.total_out_bytes)

/-- `BatchSummary.saved_percent`. -/
def BatchSummary.savedPercent (y : BatchSummary) : ℚ :=
  if y.total_src_bytes ≤ 0 then 0
  else ((y.savedBytes : ℚ) / (y.total_src_bytes : ℚ)) * 100

/-- The cooperative cancellation token.  A `threading.Event` is sticky
once set; `cancelAt = some k` models a signal that is first observed set
at the check before item `k` (1-based), so `is_set()` at the check
before item `idx` is `idx ≥ k`.  `none` models a signal never set (or no
token supplied). -/
def cancelIsSet (cancelAt : Option ℕ) (idx : ℕ) : Bool :=
  match cancelAt with
  | none => false
  | some k => idx ≥ k

/-- The `for idx, img_path in enumerate(image_list, start=1)` loop of
`process_batch`: check the cancellation signal, process the item, append
its outcome, thread the filesystem.  The per-item oracle `orc idx`
supplies the external collaborators of that call. -/
def batchLoop (s : OptimizeSettings) (orc : ℕ → Oracle) (cancelAt : Option ℕ) :
    List PathT → ℕ → FS → List ProcessResult × FS
  | [], _, fs => ([], fs)
  | p :: rest, idx, fs =>
    if cancelIsSet cancelAt idx then ([], fs)
    else
      let rf := processImage fs p s (orc idx)
      let rs := batchLoop s orc cancelAt rest (idx + 1) rf.2
      (rf.1 :: rs.1, rs.2)

/-- The `BatchSummary` accumulated by the loop's running totals: one
`total_files` increment, one processed-or-skipped increment and both
byte additions happen exactly once per appended outcome, so the totals
are the folds over the outcome list. -/
def summarize (results : List ProcessResult) : BatchSummary :=
  { total_files := results.length
    processed := (results.filter (fun r => r.out_path.isSome)).length
    skipped := (results.filter (fun r => r.out_path.isNone)).length
    total_src_bytes := (results.map (fun r => r.src_bytes)).sum
    total_out_bytes := (results.map (fun r => r.out_bytes)).sum }

/-- `process_batch` over an already-enumerated image list (the result of
`list(iter_images(...))`): run the loop and fold the outcomes into the
`BatchSummary`. -/
def processBatch (fs : FS) (imageList : List PathT) (s : OptimizeSettings)
    (orc : ℕ → Oracle) (cancelAt : Option ℕ) :
    List ProcessResult × BatchSummary × FS :=
  let rf := batchLoop s orc cancelAt imageList 1 fs
  (rf.1, summarize rf.1, rf.2)

/-! ## The report builder (`bio/report.py`) -/

/-- A JSON value, the target of `json.dump(asdict(report), ...)`. -/
inductive Json where
  | num (i : ℤ)
  | rat (q : ℚ)
  | str (s : String)
  | bool (b : Bool)
  | null
  | arr (xs : List Json)
  | obj (fields : List (String × Json))

/-- Field lookup in a parsed JSON object. -/
def Json.getField : Json → String → Option Json
  | .obj fields, k => (fields.find? (fun e => e.1 = k)).map (fun e => e.2)
  | _, _ => none

/-- `str(path)` for the structural path model. -/
def PathT.toStr (p : PathT) : String := p.dir ++ "/" ++ p.stem ++ p.ext

structure FileReport where
  src_path : String
  out_path : Option String
  src_bytes : ℕ
  out_bytes : ℕ
  saved_bytes : ℤ
  saved_percent : ℚ
  changed : Bool
  skipped_reason : Option String
  deriving DecidableEq, Repr

structure BatchReport where
  created_utc : String
  summary : List (String × Json)
  files : List FileReport

/-- An aware UTC wall-clock instant at second precision
(`datetime.now(timezone.utc)` truncated by `timespec="seconds"`). -/
structure DateTimeUTC where
  year : ℕ
  month : ℕ
  day : ℕ
  hour : ℕ
  minute : ℕ
  second : ℕ
  deriving DecidableEq, Repr

/-- Two-digit zero-padded decimal field of `isoformat`. -/
def pad2 (n : ℕ) : String := String.mk [digChar (n / 10), digChar n]

/-- Four-digit zero-padded year field of `isoformat`. -/
def pad4 (n : ℕ) : String :=
  String.mk [digChar (n / 1000), digChar (n / 100), digChar (n / 10), digChar n]

/-- `dt.isoformat(timespec="seconds")` without the UTC offset:
`YYYY-MM-DDTHH:MM:SS`. -/
def isoBody (dt : DateTimeUTC) : String :=
  pad4 dt.year ++ "-" ++ pad2 dt.month ++ "-" ++ pad2 dt.day ++ "T" ++
    pad2 dt.hour ++ ":" ++ pad2 dt.minute ++ ":" ++ pad2 dt.second

/-- `datetime.now(timezone.utc).isoformat(timespec="seconds")
.replace("+00:00", "Z")`: the aware isoformat carries the `+00:00`
offset, which the `replace` rewrites to `Z`. -/
def createdUtcString (dt : DateTimeUTC) : String :=
  pyReplace (isoBody dt ++ "+00:00") '+' "00:00".data "Z"

/-- The per-file record `build_report` appends for one `ProcessResult`. -/
def fileReportOf (r : ProcessResult) : FileReport :=
  { src_path := r.src_path.toStr
    out_path := r.out_path.map PathT.toStr
    src_bytes := r.src_bytes
    out_bytes := r.out_bytes
    saved_bytes := r.savedBytes
    saved_percent := round2 r.savedPercent
    changed := r.changed
    skipped_reason := r.skipped_reason }

/-- `build_report`, with the wall-clock instant made explicit
(`datetime.now` is the ambient clock). -/
def buildReport (results : List ProcessResult) (summary : BatchSummary)
    (now : DateTimeUTC) : BatchReport :=
  { created_utc := createdUtcString now
    summary :=
      [("total_files", Json.num summary.total_files),
       ("processed", Json.num summary.processed),
       ("skipped", Json.num summary.skipped),
       ("total_src_bytes", Json.num summary.total_src_bytes),
       ("total_out_bytes", Json.num summary.total_out_bytes),
       ("saved_bytes", Json.num summary.savedBytes),
       ("saved_percent", Json.rat (round2 summary.savedPercent))]
    files := results.map fileReportOf }

/-- `asdict` of a `FileReport`, as serialized by `json.dump`. -/
def fileReportToJson (f : FileReport) : Json :=
  .obj [("src_path", .str f.src_path),
        ("out_path", match f.out_path with | some v => .str v | none => .null),
        ("src_bytes", .num f.src_bytes),
        ("out_bytes", .num f.out_bytes),
        ("saved_bytes", .num f.saved_bytes),
        ("saved_percent", .rat f.saved_percent),
        ("changed", .bool f.changed),
        ("skipped_reason",
          match f.skipped_reason with | some v => .str v | none => .null)]

/-- The JSON document `save_report_json` writes:
`json.dump(asdict(report), f)`. -/
def reportToJson (r : BatchReport) : Json :=
  .obj [("created_utc", .str r.created_utc),
        ("summary", .obj r.summary),
        ("files", .arr (r.files.map fileReportToJson))]

/-- Decimal rendering of an integer. -/
def intStr (i : ℤ) : String :=
  if i < 0 then "-" ++ natStr i.natAbs else natStr i.natAbs

/-- Rendering of a rational cell value. -/
def ratStr (q : ℚ) : String := intStr q.num ++ "/" ++ natStr q.den

/-- A destination for report files: the set of directories that exist
plus a store of written CSV documents (header and data rows). -/
structure CsvState where
  dirs : List String
  files : List (PathT × List (List String))

/-- The CSV header row: every `FileReport` field, the derived byte and
percent columns included. -/
def csvHeader : List String :=
  ["src_path", "out_path", "src_bytes", "out_bytes", "saved_bytes",
   "saved_percent", "changed", "skipped_reason"]

/-- One CSV data row for one per-file record. -/
def csvRow (f : FileReport) : List String :=
  [f.src_path, f.out_path.getD "", natStr f.src_bytes, natStr f.out_bytes,
   intStr f.saved_bytes, ratStr f.saved_percent,
   if f.changed then "True" else "False", f.skipped_reason.getD ""]

/-- Modelled from the spec: `save_report_csv` is imported by `bio/cli.py`
and `main.py` but its definition is missing from `bio/report.py`; per the
spec it writes a header row followed by one row per file (processed or
skipped) with the derived byte/percent columns, creating the destination
directory if absent and overwriting any prior report at the same path. -/
def saveReportCsv (st : CsvState) (path : PathT) (rep : BatchReport) : CsvState :=
  { dirs := if path.dir ∈ st.dirs then st.dirs else path.dir :: st.dirs
    files := setS st.files path (csvHeader :: rep.files.map csvRow) }

/-! ## Helper lemmas -/

theorem normalizeSettings_output_dir (s : OptimizeSettings) :
    (normalizeSettings s).output_dir = s.output_dir := by
  unfold normalizeSettings; split <;> rfl

theorem normalizeSettings_output_format (s : OptimizeSettings) :
    (normalizeSettings s).output_format = s.output_format := by
  unfold normalizeSettings; split <;> rfl

theorem normalizeSettings_overwrite (s : OptimizeSettings) :
    (normalizeSettings s).overwrite = s.overwrite := by
  unfold normalizeSettings; split <;> rfl

theorem normalizeSettings_only_if_smaller (s : OptimizeSettings) :
    (normalizeSettings s).only_if_smaller = s.only_if_smaller := by
  unfold normalizeSettings; split <;> rfl

theorem normalizeSettings_suffix (s : OptimizeSettings) :
    (normalizeSettings s).suffix = s.suffix := by
  unfold normalizeSettings; split <;> rfl

/-- The savings percentage of the skip result for a missing unsupported
file is zero. -/
theorem savedPercent_zero_src {r : ProcessResult} (h : r.src_bytes = 0) :
    r.savedPercent = 0 := by
  simp [ProcessResult.savedPercent, h]

/-! ## Claims -/

/-- C3: for every source path whose extension (case-insensitively) is not
jpg/jpeg/png/webp, `process_image` returns immediately an Outcome with
skip-reason `unsupported_extension`, output byte size equal to source
byte size, `changed = false`, without writing any file (the filesystem is
returned untouched); the condition is a skip-reason, not an exception. -/
theorem claim_C3 (fs : FS) (src : PathT) (s : OptimizeSettings) (o : Oracle)
    (h : strLower src.ext ∉ supportedExts) :
    processImage fs src s o =
      ({ src_path := src, out_path := none, src_bytes := fileSize fs src,
         out_bytes := fileSize fs src, changed := false,
         skipped_reason := some "unsupported_extension" }, fs) := by
  simp [processImage, h]

theorem claim_C3_witness :
    strLower (PathT.ext ⟨"in", "notes", ".txt"⟩) ∉ supportedExts ∧
    processImage [(⟨"in", "notes", ".txt"⟩, 57)] ⟨"in", "notes", ".txt"⟩
        { output_dir := "out" } ⟨⟨0, 0, 1, 1, "RGB", false⟩, id, fun _ => 3, "bio_t"⟩ =
      ({ src_path := ⟨"in", "notes", ".txt"⟩, out_path := none, src_bytes := 57,
         out_bytes := 57, changed := false,
         skipped_reason := some "unsupported_extension" },
       [(⟨"in", "notes", ".txt"⟩, 57)]) := by
  refine ⟨by decide, ?_⟩
  have h := claim_C3 [(⟨"in", "notes", ".txt"⟩, 57)] ⟨"in", "notes", ".txt"⟩
    { output_dir := "out" } ⟨⟨0, 0, 1, 1, "RGB", false⟩, id, fun _ => 3, "bio_t"⟩
    (by decide)
  simpa [fileSize, getS] using h

/-- C10: a source path that does not exist on disk and has an unsupported
extension is not an error: `_file_size` maps the missing file to 0, and
the Outcome is the `unsupported_extension` skip with `src_bytes = 0`,
`out_bytes = 0`, `changed = false` and a derived saved-percent of 0. -/
theorem claim_C10 (fs : FS) (src : PathT) (s : OptimizeSettings) (o : Oracle)
    (hmiss : getS fs src = none) (hext : strLower src.ext ∉ supportedExts) :
    processImage fs src s o =
      ({ src_path := src, out_path := none, src_bytes := 0, out_bytes := 0,
         changed := false, skipped_reason := some "unsupported_extension" }, fs) ∧
    (processImage fs src s o).1.savedPercent = 0 := by
  have hsz : fileSize fs src = 0 := by simp [fileSize, hmiss]
  have h := claim_C3 fs src s o hext
  rw [hsz] at h
  exact ⟨h, by rw [h]; simp [ProcessResult.savedPercent]⟩

/-- C1: for every supported source file, when `only_if_smaller` is on and
the encoded temp file is not strictly smaller than the source, the
Outcome has no output path, skip-reason `not_smaller`, `changed = false`
and reported output size equal to the source size, and the temp file is
deleted: the filesystem holds exactly the files it held before. -/
theorem claim_C1 (fs : FS) (src : PathT) (s : OptimizeSettings) (o : Oracle)
    (hext : strLower src.ext ∈ supportedExts)
    (hgate : s.only_if_smaller = true)
    (henc : fileSize fs src ≤ o.encSize (processedImg src (normalizeSettings s) o))
    (htmp : getS fs
      ⟨s.output_dir, o.tmpName,
        formatToExt (chooseOutputFormat src (normalizeSettings s))⟩ = none) :
    (processImage fs src s o).1 =
      { src_path := src, out_path := none, src_bytes := fileSize fs src,
        out_bytes := fileSize fs src, changed := false,
        skipped_reason := some "not_smaller" } ∧
    ∀ q, getS (processImage fs src s o).2 q = getS fs q := by
  have hd := normalizeSettings_output_dir s
  have hos := normalizeSettings_only_if_smaller s
  unfold processImage
  rw [if_neg (not_not_intro hext)]
  rw [if_pos (by rw [hos, hgate]; exact ⟨rfl, henc⟩)]
  refine ⟨rfl, fun q => ?_⟩
  rw [getS_delS, getS_setS]
  by_cases hq : q = ⟨(normalizeSettings s).output_dir, o.tmpName,
      formatToExt (chooseOutputFormat src (normalizeSettings s))⟩
  · rw [if_pos hq, hq, hd]
    exact htmp.symm
  · rw [if_neg hq, if_neg hq]

theorem claim_C1_witness :
    (strLower (PathT.ext ⟨"in", "photo", ".jpg"⟩) ∈ supportedExts ∧
     OptimizeSettings.only_if_smaller { output_dir := "out" } = true) ∧
    (processImage [(⟨"in", "photo", ".jpg"⟩, 100)] ⟨"in", "photo", ".jpg"⟩
        { output_dir := "out" }
        ⟨⟨0, 0, 100, 50, "RGB", false⟩, id, fun _ => 150, "bio_t1"⟩).1 =
      { src_path := ⟨"in", "photo", ".jpg"⟩, out_path := none, src_bytes := 100,
        out_bytes := 100, changed := false,
        skipped_reason := some "not_smaller" } ∧
    ∀ q, getS (processImage [(⟨"in", "photo", ".jpg"⟩, 100)] ⟨"in", "photo", ".jpg"⟩
        { output_dir := "out" }
        ⟨⟨0, 0, 100, 50, "RGB", false⟩, id, fun _ => 150, "bio_t1"⟩).2 q =
      getS [(⟨"in", "photo", ".jpg"⟩, 100)] q := by
  have h := claim_C1 [(⟨"in", "photo", ".jpg"⟩, 100)] ⟨"in", "photo", ".jpg"⟩
    { output_dir := "out" }
    ⟨⟨0, 0, 100, 50, "RGB", false⟩, id, fun _ => 150, "bio_t1"⟩
    (by decide) rfl (by decide) (by decide)
  exact ⟨⟨by decide, rfl⟩, h.1, h.2⟩

/-- C2 (code bug): `OptimizeSettings` declares no
write-even-if-bigger-when-stripping-metadata field (`cli.py` and
`main.py` pass `write_even_if_bigger_when_stripping_metadata=...` to a
frozen dataclass without it), and the size gate in `process_image`
consults only `only_if_smaller`: with `strip_metadata = true` and an
encoded size not smaller than the source the output is still discarded —
no override takes precedence. -/
theorem claim_C2 :
    OptimizeSettings.strip_metadata
        { output_dir := "out", strip_metadata := true, only_if_smaller := true } = true ∧
    (processImage [(⟨"in", "photo", ".jpg"⟩, 100)] ⟨"in", "photo", ".jpg"⟩
        { output_dir := "out", strip_metadata := true, only_if_smaller := true }
        ⟨⟨0, 0, 100, 50, "RGB", false⟩, id, fun _ => 150, "bio_t1"⟩).1 =
      { src_path := ⟨"in", "photo", ".jpg"⟩, out_path := none, src_bytes := 100,
        out_bytes := 100, changed := false,
        skipped_reason := some "not_smaller" } := by
  exact ⟨rfl, by decide⟩

/-- Branch form of `_apply_center_crop` when an aspect is configured. -/
theorem applyCenterCrop_some (im : Img) (s : OptimizeSettings) (a : ℚ)
    (ha : s.cropAspect = some a) :
    applyCenterCrop im s =
      (if a ≤ 0 then im
       else if im.w = 0 ∨ im.h = 0 then im
       else if |(im.w : ℚ) / (im.h : ℚ) - a| < 1 / 1000000 then im
       else if (im.w : ℚ) / (im.h : ℚ) > a then
         im.crop ((im.w - (pyInt ((im.h : ℚ) * a)).toNat) / 2) 0
           ((im.w - (pyInt ((im.h : ℚ) * a)).toNat) / 2 +
             (pyInt ((im.h : ℚ) * a)).toNat) im.h
       else
         im.crop 0 ((im.h - (pyInt ((im.w : ℚ) / a)).toNat) / 2) im.w
           ((im.h - (pyInt ((im.w : ℚ) / a)).toNat) / 2 +
             (pyInt ((im.w : ℚ) / a)).toNat)) := by
  unfold applyCenterCrop
  rw [ha]

/-- C6 counterexample: at a 4×3 image with configured aspect 9/10 the
code crops the width to `int(3 * 0.9) = 2` pixels, not to
`round(3 * 0.9) = 3` as the claim states. -/
theorem claim_C6_counterexample :
    (0 : ℚ) < 9 / 10 ∧
    ¬(|(4 : ℚ) / 3 - 9 / 10| < 1 / 1000000) ∧
    (4 : ℚ) / 3 > 9 / 10 ∧
    (applyCenterCrop ⟨0, 0, 4, 3, "RGB", false⟩
        { output_dir := "out", cropAspect := some (9 / 10) }).w = 2 ∧
    (round ((3 : ℚ) * (9 / 10)) : ℤ) = 3 := by
  have habs : ¬(|(4 : ℚ) / 3 - 9 / 10| < 1 / 1000000) := by
    rw [not_lt, le_abs]
    left
    norm_num
  refine ⟨by norm_num, habs, by norm_num, ?_, by norm_num [round_eq]⟩
  rw [applyCenterCrop_some _ _ (9 / 10) rfl]
  rw [if_neg (by norm_num), if_neg (by norm_num)]
  have habs2 : ¬(|((4 : ℕ) : ℚ) / ((3 : ℕ) : ℚ) - 9 / 10| < 1 / 1000000) := by
    rw [not_lt, le_abs]
    left
    norm_num
  rw [if_neg habs2, if_pos (by norm_num)]
  have hfl : pyInt (((3 : ℕ) : ℚ) * (9 / 10)) = 2 := by
    rw [pyInt_eq_floor (by norm_num)]
    rw [show ((3 : ℕ) : ℚ) * (9 / 10) = 27 / 10 by norm_num]
    rw [Int.floor_eq_iff]
    norm_num
  rw [hfl]
  rfl

/-- C6 (amended): an aspect ≤ 0 is ignored; within 1e-6 of the current
aspect the crop is skipped; a too-wide image has its width cropped to
`⌊height × aspect⌋` pixels (truncation, not rounding) centered
horizontally, a too-tall image its height to `⌊width / aspect⌋` pixels
centered vertically; cropped dimensions never exceed the originals. -/
theorem claim_C6 (im : Img) (s : OptimizeSettings) (a : ℚ)
    (ha : s.cropAspect = some a) :
    (a ≤ 0 → applyCenterCrop im s = im) ∧
    (0 < a → im.w ≠ 0 → im.h ≠ 0 →
      ((|(im.w : ℚ) / (im.h : ℚ) - a| < 1 / 1000000 → applyCenterCrop im s = im) ∧
       (¬(|(im.w : ℚ) / (im.h : ℚ) - a| < 1 / 1000000) →
         (((im.w : ℚ) / (im.h : ℚ) > a →
            (applyCenterCrop im s).w = (⌊(im.h : ℚ) * a⌋).toNat ∧
            (applyCenterCrop im s).h = im.h ∧
            (applyCenterCrop im s).x0 = im.x0 + (im.w - (⌊(im.h : ℚ) * a⌋).toNat) / 2 ∧
            (applyCenterCrop im s).y0 = im.y0 ∧
            (applyCenterCrop im s).w ≤ im.w) ∧
          ((im.w : ℚ) / (im.h : ℚ) < a →
            (applyCenterCrop im s).h = (⌊(im.w : ℚ) / a⌋).toNat ∧
            (applyCenterCrop im s).w = im.w ∧
            (applyCenterCrop im s).y0 = im.y0 + (im.h - (⌊(im.w : ℚ) / a⌋).toNat) / 2 ∧
            (applyCenterCrop im s).x0 = im.x0 ∧
            (applyCenterCrop im s).h ≤ im.h))))) := by
  rw [applyCenterCrop_some im s a ha]
  constructor
  · intro hle
    rw [if_pos hle]
  · intro h0a hw hh
    have hne : ¬a ≤ 0 := not_le.mpr h0a
    have hguard : ¬(im.w = 0 ∨ im.h = 0) := by
      rintro (h | h) <;> [exact hw h; exact hh h]
    have hhq : (0 : ℚ) < (im.h : ℚ) := by
      exact_mod_cast Nat.pos_of_ne_zero hh
    rw [if_neg hne, if_neg hguard]
    constructor
    · intro hsmall
      rw [if_pos hsmall]
    · intro hbig
      rw [if_neg hbig]
      constructor
      · intro hgt
        rw [if_pos hgt]
        have hnn : (0 : ℚ) ≤ (im.h : ℚ) * a :=
          mul_nonneg (Nat.cast_nonneg _) (le_of_lt h0a)
        have hfl : pyInt ((im.h : ℚ) * a) = ⌊(im.h : ℚ) * a⌋ := pyInt_eq_floor hnn
        have hlt : (im.h : ℚ) * a < (im.w : ℚ) := by
          have h1 : (im.h : ℚ) * a < (im.h : ℚ) * ((im.w : ℚ) / (im.h : ℚ)) :=
            mul_lt_mul_of_pos_left hgt hhq
          rwa [mul_div_cancel₀ _ (ne_of_gt hhq)] at h1
        have hle : (⌊(im.h : ℚ) * a⌋).toNat ≤ im.w := by
          rw [Int.toNat_le]
          exact le_of_lt (Int.floor_lt.mpr (by exact_mod_cast hlt))
        rw [hfl]
        refine ⟨?_, ?_, ?_, ?_, ?_⟩ <;> simp [Img.crop]
        exact le_of_lt (Int.floor_lt.mpr (by exact_mod_cast hlt))
      · intro hlt
        have hngt : ¬(im.w : ℚ) / (im.h : ℚ) > a := not_lt.mpr (le_of_lt hlt)
        rw [if_neg hngt]
        have hnn : (0 : ℚ) ≤ (im.w : ℚ) / a :=
          div_nonneg (Nat.cast_nonneg _) (le_of_lt h0a)
        have hfl : pyInt ((im.w : ℚ) / a) = ⌊(im.w : ℚ) / a⌋ := pyInt_eq_floor hnn
        have hwlt : (im.w : ℚ) / a < (im.h : ℚ) := by
          rw [div_lt_iff₀ h0a]
          have h1 : (im.w : ℚ) / (im.h : ℚ) * (im.h : ℚ) < a * (im.h : ℚ) :=
            mul_lt_mul_of_pos_right hlt hhq
          rwa [div_mul_cancel₀ _ (ne_of_gt hhq), mul_comm a] at h1
        have hle : (⌊(im.w : ℚ) / a⌋).toNat ≤ im.h := by
          rw [Int.toNat_le]
          exact le_of_lt (Int.floor_lt.mpr (by exact_mod_cast hwlt))
        rw [hfl]
        refine ⟨?_, ?_, ?_, ?_, ?_⟩ <;> simp [Img.crop]
        exact le_of_lt (Int.floor_lt.mpr (by exact_mod_cast hwlt))

theorem claim_C6_witness :
    OptimizeSettings.cropAspect
        { output_dir := "out", cropAspect := some (1 / 2) } = some (1 / 2) ∧
    ((0 : ℚ) < 1 / 2 ∧ (4 : ℕ) ≠ 0 ∧ (3 : ℕ) ≠ 0 ∧
      ¬(|((4 : ℕ) : ℚ) / ((3 : ℕ) : ℚ) - 1 / 2| < 1 / 1000000) ∧
      ((4 : ℕ) : ℚ) / ((3 : ℕ) : ℚ) > 1 / 2) ∧
    (applyCenterCrop ⟨0, 0, 4, 3, "RGB", false⟩
        { output_dir := "out", cropAspect := some (1 / 2) }).w =
      (⌊((3 : ℕ) : ℚ) * (1 / 2)⌋).toNat := by
  have habs : ¬(|((4 : ℕ) : ℚ) / ((3 : ℕ) : ℚ) - 1 / 2| < 1 / 1000000) := by
    rw [not_lt, le_abs]
    left
    norm_num
  refine ⟨rfl, ⟨by norm_num, by norm_num, by norm_num, habs, by norm_num⟩, ?_⟩
  have h := claim_C6 ⟨0, 0, 4, 3, "RGB", false⟩
    { output_dir := "out", cropAspect := some (1 / 2) } (1 / 2) rfl
  have h2 := (((h.2 (by norm_num) (by norm_num) (by norm_num)).2 habs).1
    (by norm_num)).1
  exact h2

/-- The uniform bounding-box scale factor of `_apply_resize`:
`min(max_w / w, max_h / h)` with an unset bound defaulting to the
image's own dimension. -/
def boundScale (im : Img) (s : OptimizeSettings) : ℚ :=
  min ((match s.max_width with | some v => (v : ℚ) | none => (im.w : ℚ)) / (im.w : ℚ))
    ((match s.max_height with | some v => (v : ℚ) | none => (im.h : ℚ)) / (im.h : ℚ))

/-- Branch form of `_apply_resize` when a scale percent is set. -/
theorem applyResize_percent (im : Img) (s : OptimizeSettings) (sp : ℤ)
    (hsp : s.scale_percent = some sp) :
    applyResize im s =
      (if ¬s.allow_upscale ∧ (max 1 (im.w * (max 1 sp).toNat / 100) > im.w ∨
          max 1 (im.h * (max 1 sp).toNat / 100) > im.h) then im
       else if max 1 (im.w * (max 1 sp).toNat / 100) = im.w ∧
          max 1 (im.h * (max 1 sp).toNat / 100) = im.h then im
       else im.resizeTo (max 1 (im.w * (max 1 sp).toNat / 100))
         (max 1 (im.h * (max 1 sp).toNat / 100))) := by
  unfold applyResize
  rw [hsp]

/-- Branch form of `_apply_resize` in the bounding-box case. -/
theorem applyResize_bounds (im : Img) (s : OptimizeSettings)
    (hsp : s.scale_percent = none) :
    applyResize im s =
      (if s.max_width = none ∧ s.max_height = none then im
       else if ¬s.allow_upscale ∧ boundScale im s ≥ 1 then im
       else if max 1 (pyInt ((im.w : ℚ) * boundScale im s)).toNat = im.w ∧
           max 1 (pyInt ((im.h : ℚ) * boundScale im s)).toNat = im.h then im
       else im.resizeTo (max 1 (pyInt ((im.w : ℚ) * boundScale im s)).toNat)
         (max 1 (pyInt ((im.h : ℚ) * boundScale im s)).toNat)) := by
  unfold applyResize boundScale
  rw [hsp]

/-- `max(1, int(n * q))` never exceeds `n` when the scale `q` is below 1
(truncation of a negative product clamps to 1). -/
theorem clampTrunc_le (n : ℕ) (q : ℚ) (hn : 1 ≤ n) (hq : q < 1) :
    max 1 (pyInt ((n : ℚ) * q)).toNat ≤ n := by
  have hnq : (0 : ℚ) < (n : ℚ) := by exact_mod_cast Nat.lt_of_lt_of_le Nat.zero_lt_one hn
  rcases lt_or_le q 0 with h0 | h0
  · have hneg : (n : ℚ) * q < 0 := mul_neg_of_pos_of_neg hnq h0
    have hpy : pyInt ((n : ℚ) * q) = ⌈(n : ℚ) * q⌉ := by simp [pyInt, hneg]
    have hce : ⌈(n : ℚ) * q⌉ ≤ 0 := Int.ceil_le.mpr (by exact_mod_cast le_of_lt hneg)
    have hz : (pyInt ((n : ℚ) * q)).toNat = 0 := by
      rw [hpy]
      exact Int.toNat_of_nonpos hce
    rw [hz]
    simpa using hn
  · have hnn : (0 : ℚ) ≤ (n : ℚ) * q := mul_nonneg (le_of_lt hnq) h0
    rw [pyInt_eq_floor hnn]
    have hlt : (n : ℚ) * q < (n : ℚ) := by
      calc (n : ℚ) * q < (n : ℚ) * 1 := mul_lt_mul_of_pos_left hq hnq
      _ = (n : ℚ) := mul_one _
    have hfl : ⌊(n : ℚ) * q⌋ < (n : ℤ) := Int.floor_lt.mpr (by exact_mod_cast hlt)
    have h2 : (⌊(n : ℚ) * q⌋).toNat ≤ n := by
      rw [Int.toNat_le]
      exact le_of_lt hfl
    exact max_le hn h2

/-- With upscaling not allowed, `_apply_resize` never emits a dimension
exceeding the source dimension; a percent or bounding-box computation
that would enlarge an axis skips resizing entirely, and an applied
resize scales both axes by truncation clamped to 1 pixel.  This is the
behaviour the code implements once the `allow_upscale` attribute it
dereferences exists (see `claim_C7` for the missing-field bug). -/
theorem applyResize_noUpscale_invariant (im : Img) (s : OptimizeSettings)
    (hup : s.allow_upscale = false) (hw : 1 ≤ im.w) (hh : 1 ≤ im.h) :
    ((applyResize im s).w ≤ im.w ∧ (applyResize im s).h ≤ im.h) ∧
    (∀ sp, s.scale_percent = some sp →
      ((max 1 (im.w * (max 1 sp).toNat / 100) > im.w ∨
        max 1 (im.h * (max 1 sp).toNat / 100) > im.h) → applyResize im s = im) ∧
      (¬(max 1 (im.w * (max 1 sp).toNat / 100) > im.w ∨
         max 1 (im.h * (max 1 sp).toNat / 100) > im.h) →
        (applyResize im s).w = max 1 (im.w * (max 1 sp).toNat / 100) ∧
        (applyResize im s).h = max 1 (im.h * (max 1 sp).toNat / 100))) ∧
    (s.scale_percent = none → s.max_width = none ∧ s.max_height = none →
      applyResize im s = im) ∧
    (s.scale_percent = none → ¬(s.max_width = none ∧ s.max_height = none) →
      (boundScale im s ≥ 1 → applyResize im s = im) ∧
      (¬boundScale im s ≥ 1 →
        (applyResize im s).w = max 1 (pyInt ((im.w : ℚ) * boundScale im s)).toNat ∧
        (applyResize im s).h = max 1 (pyInt ((im.h : ℚ) * boundScale im s)).toNat)) := by
  have hinv : (applyResize im s).w ≤ im.w ∧ (applyResize im s).h ≤ im.h := by
    cases hsp : s.scale_percent with
    | some sp =>
      rw [applyResize_percent im s sp hsp]
      by_cases h1 : ¬s.allow_upscale ∧ (max 1 (im.w * (max 1 sp).toNat / 100) > im.w ∨
          max 1 (im.h * (max 1 sp).toNat / 100) > im.h)
      · rw [if_pos h1]
        exact ⟨le_refl _, le_refl _⟩
      · rw [if_neg h1]
        rw [hup] at h1
        simp only [Bool.false_eq_true, not_false_eq_true, true_and, not_or, not_lt] at h1
        by_cases h2 : max 1 (im.w * (max 1 sp).toNat / 100) = im.w ∧
            max 1 (im.h * (max 1 sp).toNat / 100) = im.h
        · rw [if_pos h2]
          exact ⟨le_refl _, le_refl _⟩
        · rw [if_neg h2]
          exact ⟨h1.1, h1.2⟩
    | none =>
      rw [applyResize_bounds im s hsp]
      by_cases hb : s.max_width = none ∧ s.max_height = none
      · rw [if_pos hb]
        exact ⟨le_refl _, le_refl _⟩
      · rw [if_neg hb]
        by_cases h1 : ¬s.allow_upscale ∧ boundScale im s ≥ 1
        · rw [if_pos h1]
          exact ⟨le_refl _, le_refl _⟩
        · rw [if_neg h1]
          rw [hup] at h1
          simp only [Bool.false_eq_true, not_false_eq_true, true_and, ge_iff_le,
            not_le] at h1
          by_cases h2 : max 1 (pyInt ((im.w : ℚ) * boundScale im s)).toNat = im.w ∧
              max 1 (pyInt ((im.h : ℚ) * boundScale im s)).toNat = im.h
          · rw [if_pos h2]
            exact ⟨le_refl _, le_refl _⟩
          · rw [if_neg h2]
            exact ⟨clampTrunc_le im.w _ hw h1, clampTrunc_le im.h _ hh h1⟩
  refine ⟨hinv, ?_, ?_, ?_⟩
  · intro sp hsp
    constructor
    · intro henl
      rw [applyResize_percent im s sp hsp, if_pos (by rw [hup]; exact ⟨by simp, henl⟩)]
    · intro henl
      rw [applyResize_percent im s sp hsp, if_neg (by rw [hup]; exact fun h => henl h.2)]
      by_cases h2 : max 1 (im.w * (max 1 sp).toNat / 100) = im.w ∧
          max 1 (im.h * (max 1 sp).toNat / 100) = im.h
      · rw [if_pos h2]
        exact ⟨h2.1.symm, h2.2.symm⟩
      · rw [if_neg h2]
        exact ⟨rfl, rfl⟩
  · intro hsp hb
    rw [applyResize_bounds im s hsp, if_pos hb]
  · intro hsp hb
    constructor
    · intro hsc
      rw [applyResize_bounds im s hsp, if_neg hb, if_pos (by rw [hup]; exact ⟨by simp, hsc⟩)]
    · intro hsc
      rw [applyResize_bounds im s hsp, if_neg hb, if_neg (by rw [hup]; exact fun h => hsc h.2)]
      by_cases h2 : max 1 (pyInt ((im.w : ℚ) * boundScale im s)).toNat = im.w ∧
          max 1 (pyInt ((im.h : ℚ) * boundScale im s)).toNat = im.h
      · rw [if_pos h2]
        exact ⟨h2.1.symm, h2.2.symm⟩
      · rw [if_neg h2]
        exact ⟨rfl, rfl⟩

/-- C7 (code bug): the frozen `OptimizeSettings` dataclass in
`settings.py` declares no `allow_upscale` field, yet `_apply_resize`
dereferences `s.allow_upscale` before applying any configured resize, so
in the program every configured resize raises `AttributeError` and the
claimed skip/floor behaviour never executes.  Evaluated at the failing
input (a 4x4 image with `scale_percent = 200`): the resize branch
genuinely consults the flag — it skips when the flag is false and
upscales to 8x8 when it is true — which is exactly the attribute read
that crashes on the real dataclass. -/
theorem claim_C7 :
    applyResize ⟨0, 0, 4, 4, "RGB", false⟩
        { output_dir := "out", scale_percent := some 200,
          allow_upscale := false } = ⟨0, 0, 4, 4, "RGB", false⟩ ∧
    applyResize ⟨0, 0, 4, 4, "RGB", false⟩
        { output_dir := "out", scale_percent := some 200,
          allow_upscale := true } = ⟨0, 0, 8, 8, "RGB", false⟩ := by
  constructor <;> decide

/-- The characters of the isoformat body, spelled out. -/
theorem isoBody_data (dt : DateTimeUTC) :
    (isoBody dt).data =
      [digChar (dt.year / 1000), digChar (dt.year / 100), digChar (dt.year / 10),
       digChar dt.year, '-', digChar (dt.month / 10), digChar dt.month, '-',
       digChar (dt.day / 10), digChar dt.day, 'T', digChar (dt.hour / 10),
       digChar dt.hour, ':', digChar (dt.minute / 10), digChar dt.minute, ':',
       digChar (dt.second / 10), digChar dt.second] := rfl

theorem isoBody_no_plus (dt : DateTimeUTC) : ∀ c ∈ (isoBody dt).data, c ≠ '+' := by
  intro c hc
  rw [isoBody_data] at hc
  simp only [List.mem_cons, List.not_mem_nil, or_false] at hc
  rcases hc with rfl | rfl | rfl | rfl | rfl | rfl | rfl | rfl | rfl | rfl | rfl |
    rfl | rfl | rfl | rfl | rfl | rfl | rfl | rfl
  all_goals first
  | exact digChar_ne_plus _
  | decide

/-- The `replace` of `build_report` turns the `+00:00` offset of the
aware isoformat into a literal `Z` suffix. -/
theorem createdUtcString_eq (dt : DateTimeUTC) :
    createdUtcString dt = isoBody dt ++ "Z" := by
  unfold createdUtcString pyReplace
  have hdata : (isoBody dt ++ "+00:00").data =
      (isoBody dt).data ++ ('+' :: "00:00".data) := rfl
  rw [hdata]
  rw [replChars_append_pattern _ _ _ _ (isoBody_no_plus dt)]
  rfl

/-- C8: the report built from outcomes and a summary and serialized to
JSON, when its fields are read back, yields exactly the in-memory
summary byte totals and counts; per-file and summary percentages equal
the in-memory values rounded to 2 decimal places; and the creation
timestamp is the UTC second-precision isoformat with a literal `Z`
suffix. -/
theorem claim_C8 (results : List ProcessResult) (summary : BatchSummary)
    (now : DateTimeUTC) :
    ((reportToJson (buildReport results summary now)).getField "summary").bind
        (fun j => j.getField "total_files") = some (.num summary.total_files) ∧
    ((reportToJson (buildReport results summary now)).getField "summary").bind
        (fun j => j.getField "processed") = some (.num summary.processed) ∧
    ((reportToJson (buildReport results summary now)).getField "summary").bind
        (fun j => j.getField "skipped") = some (.num summary.skipped) ∧
    ((reportToJson (buildReport results summary now)).getField "summary").bind
        (fun j => j.getField "total_src_bytes") =
      some (.num summary.total_src_bytes) ∧
    ((reportToJson (buildReport results summary now)).getField "summary").bind
        (fun j => j.getField "total_out_bytes") =
      some (.num summary.total_out_bytes) ∧
    ((reportToJson (buildReport results summary now)).getField "summary").bind
        (fun j => j.getField "saved_bytes") = some (.num summary.savedBytes) ∧
    ((reportToJson (buildReport results summary now)).getField "summary").bind
        (fun j => j.getField "saved_percent") =
      some (.rat (round2 summary.savedPercent)) ∧
    (buildReport results summary now).files.map (fun f => f.saved_percent) =
      results.map (fun r => round2 r.savedPercent) ∧
    (buildReport results summary now).created_utc = isoBody now ++ "Z" := by
  refine ⟨rfl, rfl, rfl, rfl, rfl, rfl, rfl, ?_, createdUtcString_eq now⟩
  show (results.map fileReportOf).map (fun f => f.saved_percent) =
    results.map (fun r => round2 r.savedPercent)
  rw [List.map_map]
  rfl

/-- C9 (`save_report_csv`, modelled from the spec — its definition is
absent from `bio/report.py` although `bio/cli.py` and `main.py` import
it): persisting a report as CSV writes a header row followed by one row
per file (processed or skipped) with the derived byte and percent
columns, creates the destination directory if absent, and overwrites any
prior report at the same path. -/
theorem claim_C9 (st : CsvState) (path : PathT) (rep : BatchReport) :
    getS (saveReportCsv st path rep).files path =
      some (csvHeader :: rep.files.map csvRow) ∧
    (csvHeader :: rep.files.map csvRow).length = 1 + rep.files.length ∧
    path.dir ∈ (saveReportCsv st path rep).dirs ∧
    ∀ f : FileReport, (csvRow f).length = csvHeader.length := by
  refine ⟨?_, by simp [Nat.add_comm], ?_, fun f => rfl⟩
  · show getS (setS st.files path (csvHeader :: rep.files.map csvRow)) path = _
    rw [getS_setS, if_pos rfl]
  · show path.dir ∈ (if path.dir ∈ st.dirs then st.dirs else path.dir :: st.dirs)
    by_cases h : path.dir ∈ st.dirs
    · rw [if_pos h]
      exact h
    · rw [if_neg h]
      exact List.mem_cons_self _ _

/-- A run with the signal first observed set before item `k` equals the
uncancelled run over the items before the cancellation point. -/
theorem batchLoop_cancel (s : OptimizeSettings) (orc : ℕ → Oracle) (k : ℕ) :
    ∀ (l : List PathT) (idx : ℕ) (fs : FS),
      batchLoop s orc (some k) l idx fs =
        batchLoop s orc none (l.take (k - idx)) idx fs := by
  intro l
  induction l with
  | nil =>
    intro idx fs
    simp [batchLoop]
  | cons p rest ih =>
    intro idx fs
    by_cases hik : k ≤ idx
    · have h0 : k - idx = 0 := Nat.sub_eq_zero_of_le hik
      have hc : cancelIsSet (some k) idx = true := by
        simp [cancelIsSet]
        omega
      rw [h0]
      simp [batchLoop, hc]
    · have hc : cancelIsSet (some k) idx = false := by
        simp [cancelIsSet]
        omega
      have h2 : k - idx = (k - (idx + 1)) + 1 := by omega
      rw [h2, List.take_succ_cons]
      simp only [batchLoop, hc, cancelIsSet, Bool.false_eq_true, if_false]
      simp only [ih]
      rw [if_neg (by simp only [decide_eq_true_eq]; omega)]

theorem batchLoop_none_length (s : OptimizeSettings) (orc : ℕ → Oracle) :
    ∀ (l : List PathT) (idx : ℕ) (fs : FS),
      (batchLoop s orc none l idx fs).1.length = l.length := by
  intro l
  induction l with
  | nil =>
    intro idx fs
    simp [batchLoop]
  | cons p rest ih =>
    intro idx fs
    simp [batchLoop, cancelIsSet, ih]

/-- C4: when the cancellation signal is set before processing item `k`,
`process_batch` returns exactly the `k − 1` outcomes of the items before
the cancellation point (in enumeration order, no partial outcome for the
aborted item), and the summary's counts and byte totals are accumulated
from those outcomes alone. -/
theorem claim_C4 (fs : FS) (imageList : List PathT) (s : OptimizeSettings)
    (orc : ℕ → Oracle) (k : ℕ) (hk1 : 1 ≤ k) (hk2 : k ≤ imageList.length) :
    (processBatch fs imageList s orc (some k)).1 =
      (processBatch fs (imageList.take (k - 1)) s orc none).1 ∧
    (processBatch fs imageList s orc (some k)).1.length = k - 1 ∧
    (processBatch fs imageList s orc (some k)).2.1 =
      (processBatch fs (imageList.take (k - 1)) s orc none).2.1 ∧
    (processBatch fs imageList s orc (some k)).2.1.total_files =
      (processBatch fs imageList s orc (some k)).1.length ∧
    (processBatch fs imageList s orc (some k)).2.1.processed =
      ((processBatch fs imageList s orc (some k)).1.filter
        (fun r => r.out_path.isSome)).length ∧
    (processBatch fs imageList s orc (some k)).2.1.skipped =
      ((processBatch fs imageList s orc (some k)).1.filter
        (fun r => r.out_path.isNone)).length ∧
    (processBatch fs imageList s orc (some k)).2.1.total_src_bytes =
      ((processBatch fs imageList s orc (some k)).1.map
        (fun r => r.src_bytes)).sum ∧
    (processBatch fs imageList s orc (some k)).2.1.total_out_bytes =
      ((processBatch fs imageList s orc (some k)).1.map
        (fun r => r.out_bytes)).sum := by
  have hloop := batchLoop_cancel s orc k imageList 1 fs
  have hre : (batchLoop s orc (some k) imageList 1 fs).1 =
      (batchLoop s orc none (imageList.take (k - 1)) 1 fs).1 := by
    rw [hloop]
  refine ⟨hre, ?_, ?_, rfl, rfl, rfl, rfl, rfl⟩
  · show (batchLoop s orc (some k) imageList 1 fs).1.length = k - 1
    rw [hre, batchLoop_none_length, List.length_take]
    omega
  · show summarize (batchLoop s orc (some k) imageList 1 fs).1 =
      summarize (batchLoop s orc none (imageList.take (k - 1)) 1 fs).1
    rw [hre]

theorem claim_C4_witness :
    (1 ≤ 2 ∧ 2 ≤ ([⟨"in", "a", ".jpg"⟩, ⟨"in", "b", ".jpg"⟩,
        ⟨"in", "c", ".jpg"⟩] : List PathT).length) ∧
    (processBatch [] [⟨"in", "a", ".jpg"⟩, ⟨"in", "b", ".jpg"⟩, ⟨"in", "c", ".jpg"⟩]
        { output_dir := "out" }
        (fun _ => ⟨⟨0, 0, 8, 8, "RGB", false⟩, id, fun _ => 9, "bio_t"⟩)
        (some 2)).1.length = 2 - 1 := by
  have h := claim_C4 [] [⟨"in", "a", ".jpg"⟩, ⟨"in", "b", ".jpg"⟩, ⟨"in", "c", ".jpg"⟩]
    { output_dir := "out" }
    (fun _ => ⟨⟨0, 0, 8, 8, "RGB", false⟩, id, fun _ => 9, "bio_t"⟩)
    2 (by norm_num) (by norm_num)
  exact ⟨⟨by norm_num, by norm_num⟩, h.2.1⟩

theorem fileExists_eq_false {fs : FS} {p : PathT} :
    fileExists fs p = false ↔ getS fs p = none := by
  unfold fileExists
  cases getS fs p <;> simp

theorem getS_isSome_mem {α : Type} (fs : List (PathT × α)) (p : PathT)
    (h : (getS fs p).isSome) : p ∈ fs.map Prod.fst := by
  induction fs with
  | nil => simp [getS] at h
  | cons e t ih =>
    obtain ⟨r, v⟩ := e
    by_cases hp : p = r
    · simp [hp]
    · rw [getS, if_neg hp] at h
      simp only [List.map_cons, List.mem_cons]
      exact Or.inr (ih h)

/-- Pigeonhole: among the first `|fs| + 1` collision candidates at least
one name is unused (candidate names are pairwise distinct). -/
theorem exists_free_cand (fs : FS) (p : PathT) :
    ∃ j, 1 ≤ j ∧ j < 1 + (fs.length + 1) ∧
      fileExists fs (candPath p j) = false := by
  by_contra hcon
  push_neg at hcon
  have hmem : ∀ j ∈ Finset.Icc 1 (fs.length + 1),
      candPath p j ∈ List.map Prod.fst fs := by
    intro j hj
    rw [Finset.mem_Icc] at hj
    have h1 := hcon j hj.1 (by omega)
    have h2 : (getS fs (candPath p j)).isSome := by
      rcases Bool.eq_false_or_eq_true (fileExists fs (candPath p j)) with h | h
      · exact h
      · exact absurd h h1
    exact getS_isSome_mem fs _ h2
  have hsub : (Finset.Icc 1 (fs.length + 1)).image (candPath p) ⊆
      (List.map Prod.fst fs).toFinset := by
    intro x hx
    rw [Finset.mem_image] at hx
    obtain ⟨j, hj, rfl⟩ := hx
    rw [List.mem_toFinset]
    exact hmem j hj
  have hcard := Finset.card_le_card hsub
  rw [Finset.card_image_of_injective _ (candPath_injective p)] at hcard
  have h3 : (Finset.Icc 1 (fs.length + 1)).card = fs.length + 1 := by
    rw [Nat.card_Icc]
    omega
  have h4 := List.toFinset_card_le (List.map Prod.fst fs)
  rw [List.length_map] at h4
  omega

/-- The `while True` search of `_next_available_name` returns the first
free candidate, provided one exists within the fuel. -/
theorem nextAvailAux_spec (fs : FS) (p : PathT) :
    ∀ (fuel i : ℕ),
      (∃ j, i ≤ j ∧ j < i + fuel ∧ fileExists fs (candPath p j) = false) →
      ∃ m, nextAvailAux fs p fuel i = candPath p m ∧ i ≤ m ∧
        fileExists fs (candPath p m) = false ∧
        ∀ j, i ≤ j → j < m → fileExists fs (candPath p j) = true := by
  intro fuel
  induction fuel with
  | zero =>
    intro i h
    obtain ⟨j, hj1, hj2, _⟩ := h
    omega
  | succ fuel ih =>
    intro i h
    rw [nextAvailAux]
    by_cases hb : fileExists fs (candPath p i) = true
    · rw [if_pos hb]
      have h2 : ∃ j, i + 1 ≤ j ∧ j < (i + 1) + fuel ∧
          fileExists fs (candPath p j) = false := by
        obtain ⟨j, hj1, hj2, hj3⟩ := h
        refine ⟨j, ?_, by omega, hj3⟩
        rcases Nat.eq_or_lt_of_le hj1 with rfl | hlt
        · rw [hb] at hj3
          exact absurd hj3 (by simp)
        · omega
      obtain ⟨m, hm1, hm2, hm3, hm4⟩ := ih (i + 1) h2
      refine ⟨m, hm1, by omega, hm3, ?_⟩
      intro j hij hjm
      rcases Nat.eq_or_lt_of_le hij with rfl | hlt
      · exact hb
      · exact hm4 j hlt hjm
    · have hb2 : fileExists fs (candPath p i) = false := by
        rcases Bool.eq_false_or_eq_true (fileExists fs (candPath p i)) with h | h
        · exact absurd h hb
        · exact h
      rw [if_neg (by rw [hb2]; simp)]
      exact ⟨i, rfl, le_refl i, hb2,
        fun j h1 h2 => absurd (lt_of_le_of_lt h1 h2) (lt_irrefl i)⟩

/-- `_next_available_name` picks the smallest positive counter whose
candidate does not exist. -/
theorem nextAvailableName_spec (fs : FS) (p : PathT) :
    ∃ m, nextAvailableName fs p = candPath p m ∧ 1 ≤ m ∧
      fileExists fs (candPath p m) = false ∧
      ∀ j, 1 ≤ j → j < m → fileExists fs (candPath p j) = true :=
  nextAvailAux_spec fs p (fs.length + 1) 1 (exists_free_cand fs p)

/-- A collision candidate never collides with the base name itself. -/
theorem candPath_ne (p : PathT) (i : ℕ) : candPath p i ≠ p := by
  intro h
  have hstem := congrArg (fun q => q.stem.length) h
  simp only [candPath, String.length_append] at hstem
  have h2 : (" (" : String).length = 2 := rfl
  have h3 : (")" : String).length = 1 := rfl
  rw [h2, h3] at hstem
  omega

/-- The output path `process_image` selects: the constructed path, or
the first free collision candidate when it exists and overwrite is off. -/
def outPathSel (fs : FS) (src : PathT) (s : OptimizeSettings) : PathT :=
  let sn := normalizeSettings s
  let fmt := chooseOutputFormat src sn
  let p0 := buildOutputPath src sn fmt
  if fileExists fs p0 ∧ ¬sn.overwrite then nextAvailableName fs p0 else p0

/-- Filesystem effect of one successful (written) `process_image` call:
the selected output path now holds the encoded bytes, the temp file is
gone, and every other file is untouched. -/
theorem processImage_changed (fs : FS) (src : PathT) (s : OptimizeSettings)
    (o : Oracle)
    (hext : strLower src.ext ∈ supportedExts)
    (hov : s.overwrite = false)
    (hgate : s.only_if_smaller = false ∨
      o.encSize (processedImg src (normalizeSettings s) o) < fileSize fs src)
    (htmp : getS fs ⟨s.output_dir, o.tmpName,
      formatToExt (chooseOutputFormat src (normalizeSettings s))⟩ = none) :
    (processImage fs src s o).1.out_path = some (outPathSel fs src s) ∧
    (processImage fs src s o).1.changed = true ∧
    ∀ q, getS (processImage fs src s o).2 q =
      if q = outPathSel fs src s
      then some (o.encSize (processedImg src (normalizeSettings s) o))
      else getS fs q := by
  have hos := normalizeSettings_only_if_smaller s
  have hod := normalizeSettings_output_dir s
  have how := normalizeSettings_overwrite s
  have hgate2 : ¬((normalizeSettings s).only_if_smaller = true ∧
      o.encSize (processedImg src (normalizeSettings s) o) ≥ fileSize fs src) := by
    rcases hgate with hg | hg
    · intro hc
      rw [hos, hg] at hc
      exact absurd hc.1 (by simp)
    · exact fun hc => absurd hc.2 (not_le.mpr hg)
  have htmp2 : getS fs ⟨(normalizeSettings s).output_dir, o.tmpName,
      formatToExt (chooseOutputFormat src (normalizeSettings s))⟩ = none := by
    rw [hod]
    exact htmp
  unfold processImage outPathSel
  rw [if_neg (not_not_intro hext)]
  dsimp only
  by_cases hcoll : fileExists fs (buildOutputPath src (normalizeSettings s)
      (chooseOutputFormat src (normalizeSettings s))) = true ∧
      ¬((normalizeSettings s).overwrite = true)
  · rw [if_pos hcoll, if_neg hgate2]
    dsimp only
    rw [if_neg (fun hc => by
      rw [how, hov] at hc
      exact absurd hc.1 (by simp))]
    refine ⟨rfl, rfl, fun q => ?_⟩
    rw [getS_setS]
    by_cases hqo : q = nextAvailableName fs (buildOutputPath src (normalizeSettings s)
        (chooseOutputFormat src (normalizeSettings s)))
    · rw [if_pos hqo, if_pos hqo]
    · rw [if_neg hqo, if_neg hqo]
      rw [getS_delS, getS_setS]
      by_cases hqt : q = ⟨(normalizeSettings s).output_dir, o.tmpName,
          formatToExt (chooseOutputFormat src (normalizeSettings s))⟩
      · rw [if_pos hqt, hqt]
        exact htmp2.symm
      · rw [if_neg hqt, if_neg hqt]
  · rw [if_neg hcoll, if_neg hgate2]
    dsimp only
    rw [if_neg (fun hc => by
      rw [how, hov] at hc
      exact absurd hc.1 (by simp))]
    refine ⟨rfl, rfl, fun q => ?_⟩
    rw [getS_setS]
    by_cases hqo : q = buildOutputPath src (normalizeSettings s)
        (chooseOutputFormat src (normalizeSettings s))
    · rw [if_pos hqo, if_pos hqo]
    · rw [if_neg hqo, if_neg hqo]
      rw [getS_delS, getS_setS]
      by_cases hqt : q = ⟨(normalizeSettings s).output_dir, o.tmpName,
          formatToExt (chooseOutputFormat src (normalizeSettings s))⟩
      · rw [if_pos hqt, hqt]
        exact htmp2.symm
      · rw [if_neg hqt, if_neg hqt]

/-- C5: the output path is `{output_dir}/{stem}{suffix}{ext}`; on a
collision without overwrite the engine picks `stem (i).ext` for the
smallest positive `i` whose candidate does not exist; and two successive
runs into the same output directory without overwrite produce the two
distinct files `name.ext` and `name (1).ext`, both present afterwards. -/
theorem claim_C5 :
    (∀ (src : PathT) (s : OptimizeSettings) (fmt : EncFmt),
      buildOutputPath src s fmt =
        { dir := s.output_dir, stem := src.stem ++ s.suffix,
          ext := formatToExt fmt }) ∧
    (∀ (fs : FS) (p : PathT),
      ∃ m, nextAvailableName fs p = candPath p m ∧ 1 ≤ m ∧
        fileExists fs (candPath p m) = false ∧
        ∀ j, 1 ≤ j → j < m → fileExists fs (candPath p j) = true) ∧
    (∀ (fs : FS) (src : PathT) (s : OptimizeSettings) (o o2 : Oracle),
      strLower src.ext ∈ supportedExts →
      s.overwrite = false →
      (s.only_if_smaller = false ∨
        o.encSize (processedImg src (normalizeSettings s) o) < fileSize fs src) →
      getS fs ⟨s.output_dir, o.tmpName,
        formatToExt (chooseOutputFormat src (normalizeSettings s))⟩ = none →
      fileExists fs (buildOutputPath src (normalizeSettings s)
        (chooseOutputFormat src (normalizeSettings s))) = false →
      fileExists fs (candPath (buildOutputPath src (normalizeSettings s)
        (chooseOutputFormat src (normalizeSettings s))) 1) = false →
      (s.only_if_smaller = false ∨
        o2.encSize (processedImg src (normalizeSettings s) o2) <
          fileSize (processImage fs src s o).2 src) →
      getS (processImage fs src s o).2 ⟨s.output_dir, o2.tmpName,
        formatToExt (chooseOutputFormat src (normalizeSettings s))⟩ = none →
      (processImage fs src s o).1.out_path =
        some (buildOutputPath src (normalizeSettings s)
          (chooseOutputFormat src (normalizeSettings s))) ∧
      (processImage (processImage fs src s o).2 src s o2).1.out_path =
        some (candPath (buildOutputPath src (normalizeSettings s)
          (chooseOutputFormat src (normalizeSettings s))) 1) ∧
      buildOutputPath src (normalizeSettings s)
          (chooseOutputFormat src (normalizeSettings s)) ≠
        candPath (buildOutputPath src (normalizeSettings s)
          (chooseOutputFormat src (normalizeSettings s))) 1 ∧
      fileExists (processImage (processImage fs src s o).2 src s o2).2
        (buildOutputPath src (normalizeSettings s)
          (chooseOutputFormat src (normalizeSettings s))) = true ∧
      fileExists (processImage (processImage fs src s o).2 src s o2).2
        (candPath (buildOutputPath src (normalizeSettings s)
          (chooseOutputFormat src (normalizeSettings s))) 1) = true) := by
  refine ⟨fun src s fmt => rfl, nextAvailableName_spec, ?_⟩
  intro fs src s o o2 hext hov hgate1 htmp1 h0 hc1 hgate2 htmp2
  obtain ⟨hout1, hch1, hfs1⟩ := processImage_changed fs src s o hext hov hgate1 htmp1
  have hsel1 : outPathSel fs src s = buildOutputPath src (normalizeSettings s)
      (chooseOutputFormat src (normalizeSettings s)) := by
    unfold outPathSel
    dsimp only
    rw [if_neg (fun hc => by
      rw [h0] at hc
      exact absurd hc.1 (by simp))]
  rw [hsel1] at hout1 hfs1
  obtain ⟨hout2, hch2, hfs2⟩ :=
    processImage_changed (processImage fs src s o).2 src s o2 hext hov hgate2 htmp2
  have hp0 : fileExists (processImage fs src s o).2
      (buildOutputPath src (normalizeSettings s)
        (chooseOutputFormat src (normalizeSettings s))) = true := by
    unfold fileExists
    rw [hfs1, if_pos rfl]
    rfl
  have hc1f : fileExists (processImage fs src s o).2
      (candPath (buildOutputPath src (normalizeSettings s)
        (chooseOutputFormat src (normalizeSettings s))) 1) = false := by
    rw [fileExists_eq_false]
    rw [hfs1, if_neg (candPath_ne _ 1)]
    exact fileExists_eq_false.mp hc1
  have hsel2 : outPathSel (processImage fs src s o).2 src s =
      candPath (buildOutputPath src (normalizeSettings s)
        (chooseOutputFormat src (normalizeSettings s))) 1 := by
    unfold outPathSel
    dsimp only
    rw [if_pos ⟨hp0, by rw [normalizeSettings_overwrite, hov]; simp⟩]
    unfold nextAvailableName
    rw [nextAvailAux]
    rw [if_neg (by rw [hc1f]; simp)]
  rw [hsel2] at hout2 hfs2
  refine ⟨hout1, hout2, Ne.symm (candPath_ne _ 1), ?_, ?_⟩
  · unfold fileExists
    rw [hfs2, if_neg (Ne.symm (candPath_ne _ 1)), hfs1, if_pos rfl]
    rfl
  · unfold fileExists
    rw [hfs2, if_pos rfl]
    rfl

theorem claim_C5_witness :
    (strLower (PathT.ext ⟨"d", "x", ".png"⟩) ∈ supportedExts ∧
     OptimizeSettings.overwrite { output_dir := "o", only_if_smaller := false } = false ∧
     OptimizeSettings.only_if_smaller
       { output_dir := "o", only_if_smaller := false } = false ∧
     getS ([] : FS) ⟨"o", "t1", ".png"⟩ = none ∧
     fileExists [] ⟨"o", "x_optimized", ".png"⟩ = false ∧
     fileExists [] ⟨"o", "x_optimized (1)", ".png"⟩ = false ∧
     getS (processImage [] ⟨"d", "x", ".png"⟩
         { output_dir := "o", only_if_smaller := false }
         ⟨⟨0, 0, 5, 5, "RGB", false⟩, id, fun _ => 7, "t1"⟩).2
       ⟨"o", "t2", ".png"⟩ = none) ∧
    (processImage [] ⟨"d", "x", ".png"⟩
        { output_dir := "o", only_if_smaller := false }
        ⟨⟨0, 0, 5, 5, "RGB", false⟩, id, fun _ => 7, "t1"⟩).1.out_path =
      some ⟨"o", "x_optimized", ".png"⟩ ∧
    (processImage (processImage [] ⟨"d", "x", ".png"⟩
        { output_dir := "o", only_if_smaller := false }
        ⟨⟨0, 0, 5, 5, "RGB", false⟩, id, fun _ => 7, "t1"⟩).2 ⟨"d", "x", ".png"⟩
        { output_dir := "o", only_if_smaller := false }
        ⟨⟨0, 0, 5, 5, "RGB", false⟩, id, fun _ => 7, "t2"⟩).1.out_path =
      some ⟨"o", "x_optimized (1)", ".png"⟩ := by
  have h := claim_C5.2.2 [] ⟨"d", "x", ".png"⟩
    { output_dir := "o", only_if_smaller := false }
    ⟨⟨0, 0, 5, 5, "RGB", false⟩, id, fun _ => 7, "t1"⟩
    ⟨⟨0, 0, 5, 5, "RGB", false⟩, id, fun _ => 7, "t2"⟩
    (by decide) rfl (Or.inl rfl) rfl rfl rfl (Or.inl rfl) (by decide)
  have h1 : natStr 1 = "1" := by
    unfold natStr
    rw [natDigitsRev]
    norm_num
    rfl
  refine ⟨⟨by decide, rfl, rfl, rfl, rfl, rfl, by decide⟩, h.1, ?_⟩
  rw [h.2.1]
  unfold candPath
  rw [h1]
  rfl

theorem claim_C10_witness :
    getS ([] : FS) ⟨"in", "ghost", ".txt"⟩ = none ∧
    strLower (PathT.ext ⟨"in", "ghost", ".txt"⟩) ∉ supportedExts ∧
    (processImage [] ⟨"in", "ghost", ".txt"⟩ { output_dir := "out" }
        ⟨⟨0, 0, 1, 1, "RGB", false⟩, id, fun _ => 3, "bio_t"⟩ =
      ({ src_path := ⟨"in", "ghost", ".txt"⟩, out_path := none, src_bytes := 0,
         out_bytes := 0, changed := false,
         skipped_reason := some "unsupported_extension" }, []) ∧
    (processImage [] ⟨"in", "ghost", ".txt"⟩ { output_dir := "out" }
        ⟨⟨0, 0, 1, 1, "RGB", false⟩, id, fun _ => 3, "bio_t"⟩).1.savedPercent = 0) := by
  exact ⟨rfl, by decide,
    claim_C10 [] ⟨"in", "ghost", ".txt"⟩ { output_dir := "out" }
      ⟨⟨0, 0, 1, 1, "RGB", false⟩, id, fun _ => 3, "bio_t"⟩ rfl (by decide)⟩

end Bio
